import Mathlib

/-
  Verification of the reconciliation and correlation core of the
  lark-wiki-mcp-agents repository.

  Part 1 embeds the asynchronous request/response correlator of
  `LarkWikiMCPAgent` (sendMCPRequest / handleMCPResponse).
  Part 2 embeds the `WikiIndexManager` synchronization engine
  (collectTopicPages, filterResults, removeDuplicates, updateIndexPage,
  addToMultipleIndexes, getStatistics).

  Machine strings are Lean `String`; a JavaScript value that may be
  `undefined` is an `Option`; JS truthiness of strings (empty string is
  falsy) is made explicit where the source relies on it.
-/

set_option autoImplicit false

namespace LarkAgent

/-- The `error` envelope of an inbound message: `{code, message}`
(interface `MCPResponse` in lark-wiki-mcp-agent.ts). -/
structure MCPError where
  code : Int
  message : String
deriving Repr, DecidableEq

/-- An inbound message, parametrised by the payload type `α` of `result`.
`id = 0` models a missing or zero id: the source guards with the JS
truthiness test `if (response.id && ...)`, under which both behave
identically. -/
structure MCPResponse (α : Type) where
  id : Nat
  error : Option MCPError
  result : Option α
deriving Repr, DecidableEq

/-- What the correlator does to a continuation: `resolve(response.result)`
or `reject(new Error(response.error.message))`.  The rejection payload is
exactly the string passed to the `Error` constructor in the source. -/
inductive Outcome (α : Type) where
  | resolved (result : Option α)
  | rejected (message : String)
deriving Repr, DecidableEq

/-- The mutable agent state relevant to correlation: the id counter
(`requestId`, initialised to 1) and the pending-request table
(`pendingRequests : Map<number, cont>`), modelled as an association list
in Map insertion order.  `γ` is the type of continuation tokens. -/
structure AgentState (γ : Type) where
  requestId : Nat
  pending : List (Nat × γ)

/-- `Map.get` on the pending table. -/
def mapGet {γ : Type} (m : List (Nat × γ)) (k : Nat) : Option γ :=
  (m.find? (fun e => e.1 == k)).map (fun e => e.2)

/-- `Map.has` on the pending table. -/
def mapHas {γ : Type} (m : List (Nat × γ)) (k : Nat) : Bool :=
  (m.find? (fun e => e.1 == k)).isSome

/-- `Map.set`: update in place when the key exists, else append (JS Maps
iterate in insertion order). -/
def mapSet {γ : Type} (m : List (Nat × γ)) (k : Nat) (v : γ) : List (Nat × γ) :=
  if m.any (fun e => e.1 == k) then
    m.map (fun e => if e.1 == k then (k, v) else e)
  else m ++ [(k, v)]

/-- `Map.delete`: keys are unique in a Map, so removal is a filter. -/
def mapDelete {γ : Type} (m : List (Nat × γ)) (k : Nat) : List (Nat × γ) :=
  m.filter (fun e => e.1 ≠ k)

/-- `sendMCPRequest`: allocate `id = this.requestId++`, store the
continuation under that id, then transmit.  When the transport stdin is
absent the source rejects immediately with `'MCP process not initialized'`
but the pending entry (already set) is left in the table; the optional
immediate outcome models that rejection. -/
def sendMCPRequest {γ : Type} {α : Type} (st : AgentState γ) (cont : γ) (stdinLive : Bool) :
    AgentState γ × Nat × Option (γ × Outcome α) :=
  let id := st.requestId
  let st' : AgentState γ := { requestId := st.requestId + 1, pending := mapSet st.pending id cont }
  if stdinLive then (st', id, none)
  else (st', id, some (cont, Outcome.rejected "MCP process not initialized"))

/-- `if (response.error) reject(new Error(response.error.message))
else resolve(response.result)`: the settlement applied to the matched
continuation.  The `Error` constructed by the source receives only
`response.error.message`. -/
def mcpOutcome {α : Type} (error : Option MCPError) (result : Option α) : Outcome α :=
  match error with
  | some e => Outcome.rejected e.message
  | none => Outcome.resolved result

/-- One parsed line of `handleMCPResponse`:
`if (response.id && pendingRequests.has(response.id))` take the
continuation, delete its entry, then settle it with `mcpOutcome`.
Returns the new table and the list of (continuation, outcome) effects
(empty when the id is unknown or falsy). -/
def handleParsedResponse {γ α : Type} (pending : List (Nat × γ)) (r : MCPResponse α) :
    List (Nat × γ) × List (γ × Outcome α) :=
  match (if r.id == 0 then none else mapGet pending r.id) with
  | none => (pending, [])
  | some c => (mapDelete pending r.id, [(c, mcpOutcome r.error r.result)])

/-- `handleMCPResponse`: the data chunk is split into lines and each line
is parsed independently; a line that fails `JSON.parse` (`none` here) is
silently skipped.  Effects accumulate in arrival order. -/
def handleMCPResponse {γ α : Type} (pending : List (Nat × γ))
    (lines : List (Option (MCPResponse α))) :
    List (Nat × γ) × List (γ × Outcome α) :=
  lines.foldl
    (fun acc line =>
      match line with
      | none => acc
      | some r =>
          let step := handleParsedResponse acc.1 r
          (step.1, acc.2 ++ step.2))
    (pending, [])

/-- The agent starts with `requestId = 1` and an empty pending table. -/
def initialAgentState (γ : Type) : AgentState γ :=
  { requestId := 1, pending := [] }

end LarkAgent

namespace WikiIndex

/-- JS string truthiness: `undefined` and `""` are falsy.  `strTruthy s`
is `some` exactly when `s` is a truthy string. -/
def strTruthy : Option String → Option String
  | some s => if s = "" then none else some s
  | none => none

/-- `a || b` where `a` is a possibly-undefined string and `b` a string. -/
def jsOrStr (a : Option String) (b : String) : String :=
  (strTruthy a).getD b

/-- A `RegExp` is embedded by its observable behaviour `pattern.test`. -/
def Pattern : Type := String → Bool

/-- The `Topic` interface of wiki-index-manager.ts.  `includePatterns`
and `excludePatterns` are optional fields (`none` is JS `undefined`,
which is falsy; `some []` is an empty array, which is truthy). -/
structure Topic where
  id : String
  name : String
  keywords : List String
  includePatterns : Option (List Pattern)
  excludePatterns : Option (List Pattern)
  priority : Option Int

/-- A registered Wiki space (`WikiInfo`). -/
structure WikiInfo where
  spaceId : String
  spaceName : String
  searchEnabled : Bool
deriving Repr, DecidableEq

/-- A search hit as consumed by the manager.  `node_token`, `obj_token`
and `space_id` may be absent; `title` and `content` are read through
`|| ''` in `filterResults`, so absence is collapsed to `""`. -/
structure Page where
  node_token : Option String
  obj_token : Option String
  title : String
  content : String
  space_id : Option String
deriving Repr, DecidableEq

/-- `page.node_token || page.obj_token` (line 404 and line 465 of the
source): JS `||` falls through on a falsy left operand. -/
def jsTokenOf (p : Page) : Option String :=
  match strTruthy p.node_token with
  | some s => some s
  | none => p.obj_token

/-- The canonical identity used by `removeDuplicates`: the token above,
further subjected to the `if (key && ...)` truthiness guard. -/
def dedupKey (p : Page) : Option String :=
  strTruthy (jsTokenOf p)

/-- The `IndexPage` interface. -/
structure IndexPage where
  nodeToken : String
  spaceId : String
  title : String
  topics : List Topic
  autoUpdate : Bool

/-- The `ShortcutInfo` record appended by `updateIndexPage`.  The
`createdAt : Date` wall-clock field carries no verified content and is
omitted. -/
structure ShortcutInfo where
  targetNodeToken : Option String
  targetTitle : String
  targetSpaceId : String
  indexNodeToken : String
  topicId : String
  matchedKeywords : List String
deriving Repr, DecidableEq

/-- A child node as returned by `LIST_NODES` and inspected by
`getExistingShortcuts`; `origin_node_token` may be absent on non-shortcut
children. -/
structure ChildNode where
  node_type : String
  origin_node_token : Option String
  origin_space_id : String
deriving Repr, DecidableEq

/-- The remote service is reached only through the agent; for the claims
it is modelled by the children each parent node currently has (consumed
by `LIST_NODES`, extended by `CREATE_NODE` with `node_type 'shortcut'`). -/
def Children : Type := String → List ChildNode

/-- Effect of a successful create-reference-link call on the remote:
the new shortcut child is appended under the parent. -/
def addChild (ch : Children) (parent : String) (c : ChildNode) : Children :=
  fun t => if t = parent then ch t ++ [c] else ch t

/-- The search oracle standing for `searchWiki` (agent call plus
`searchCache`): one run sees a fixed result per (spaceId, keyword);
`none` models a thrown search error, caught per keyword in
`collectTopicPages`. -/
def SearchFn : Type := String → String → Option (List Page)

/-- Success oracle for `createShortcut` on (index token, origin token);
`false` models the call throwing, which `updateIndexPage` catches per
item. -/
def CreateOk : Type := String → Option String → Bool

/-- The mutable fields of `WikiIndexManager` touched by the claims. -/
structure ManagerState where
  wikis : List WikiInfo
  indexPages : List (String × IndexPage)
  shortcuts : List (Option String × List ShortcutInfo)
  children : Children

/-- `Map.get` on the index-page registry. -/
def findIndexPage (m : List (String × IndexPage)) (k : String) : Option IndexPage :=
  (m.find? (fun e => e.1 == k)).map (fun e => e.2)

/-- JS `.toLowerCase()`, modelled character by character over the
underlying character list. -/
def lowerStr (s : String) : String :=
  String.mk (s.data.map Char.toLower)

/-- `filterResults`: the predicate applied to each search hit, over the
lower-cased concatenation of title and content.  Any exclude-pattern
match rejects; otherwise declared include patterns must produce at least
one match; otherwise accept. -/
def keepResult (topic : Topic) (result : Page) : Bool :=
  let text := lowerStr (result.title ++ " " ++ result.content)
  if (topic.excludePatterns.getD []).any (fun pat => pat text) then false
  else
    match topic.includePatterns with
    | some pats => pats.any (fun pat => pat text)
    | none => true

/-- `filterResults(results, topic)`. -/
def filterResults (results : List Page) (topic : Topic) : List Page :=
  results.filter (keepResult topic)

/-- `removeDuplicates`: a `seen` Map keyed by `page.node_token ||
page.obj_token`, first occurrence wins, falsy keys never inserted;
`Array.from(seen.values())` yields insertion order.  The accumulator
pairs the kept pages (the Map values in order) with the seen keys. -/
def removeDuplicates (pages : List Page) : List Page :=
  (pages.foldl
    (fun (acc : List Page × List String) page =>
      match dedupKey page with
      | none => acc
      | some k => if k ∈ acc.2 then acc else (acc.1 ++ [page], acc.2 ++ [k]))
    ([], [])).1

/-- The `allPages` accumulation of `collectTopicPages`: every enabled
wiki, every keyword of the topic, search (errors caught and skipped),
filter, append. -/
def collectAllPages (wikis : List WikiInfo) (search : SearchFn) (topic : Topic) : List Page :=
  wikis.foldl
    (fun acc wiki =>
      if !wiki.searchEnabled then acc
      else
        topic.keywords.foldl
          (fun acc2 keyword =>
            match search wiki.spaceId keyword with
            | none => acc2
            | some results => acc2 ++ filterResults results topic)
          acc)
    []

/-- `collectTopicPages`: the accumulated hits, deduplicated. -/
def collectTopicPages (wikis : List WikiInfo) (search : SearchFn) (topic : Topic) : List Page :=
  removeDuplicates (collectAllPages wikis search topic)

/-- `getExistingShortcuts`: `LIST_NODES` with `page_size: 500` (the
remote returns at most one page of 500 children), filtered to
shortcut-typed children. -/
def getExistingShortcuts (ch : Children) (parent : String) : List ChildNode :=
  ((ch parent).take 500).filter (fun item => item.node_type = "shortcut")

/-- The existing-link identity set built at the start of
`updateIndexPage`: `new Set(existingNodes.map(n => n.origin_node_token))`. -/
def existingTokenSet (ch : Children) (parent : String) : List (Option String) :=
  (getExistingShortcuts ch parent).map (fun n => n.origin_node_token)

/-- The `ShortcutInfo` recorded for a created link. -/
def mkInfo (indexNodeToken indexSpaceId : String) (topic : Topic) (page : Page) : ShortcutInfo :=
  { targetNodeToken := jsTokenOf page
    targetTitle := page.title
    targetSpaceId := jsOrStr page.space_id indexSpaceId
    indexNodeToken := indexNodeToken
    topicId := topic.id
    matchedKeywords := topic.keywords }

/-- The remote shortcut child produced by `createShortcut`. -/
def mkChild (indexSpaceId : String) (page : Page) : ChildNode :=
  { node_type := "shortcut"
    origin_node_token := jsTokenOf page
    origin_space_id := jsOrStr page.space_id indexSpaceId }

/-- `if (!shortcuts.has(t)) shortcuts.set(t, []); shortcuts.get(t).push(info)`. -/
def pushShortcut (m : List (Option String × List ShortcutInfo)) (k : Option String)
    (v : ShortcutInfo) : List (Option String × List ShortcutInfo) :=
  if m.any (fun e => e.1 == k) then
    m.map (fun e => if e.1 == k then (e.1, e.2 ++ [v]) else e)
  else m ++ [(k, [v])]

/-- The body of the inner `for (const page of pages)` loop of
`updateIndexPage`.  The accumulator is (state, created, skipped).
A page whose token is in the fixed existing set is skipped; otherwise
`createShortcut` is attempted: on success the remote gains the child,
the record is pushed and `created` increments; on a thrown create the
error is logged and the loop simply continues. -/
def processPage (co : CreateOk) (indexNodeToken indexSpaceId : String)
    (existing : List (Option String)) (topic : Topic)
    (acc : ManagerState × Nat × Nat) (page : Page) : ManagerState × Nat × Nat :=
  let st := acc.1
  let targetToken := jsTokenOf page
  if targetToken ∈ existing then
    (st, acc.2.1, acc.2.2 + 1)
  else if co indexNodeToken targetToken then
    ({ st with
        children := addChild st.children indexNodeToken (mkChild indexSpaceId page)
        shortcuts := pushShortcut st.shortcuts targetToken (mkInfo indexNodeToken indexSpaceId topic page) },
     acc.2.1 + 1, acc.2.2)
  else (st, acc.2.1, acc.2.2)

/-- The body of the outer `for (const topic of indexPage.topics)` loop:
collect the topic's candidate pages against the current wikis, then run
the inner loop from fresh (created, skipped) counters; the per-topic
counters are appended to a log. -/
def processTopic (search : SearchFn) (co : CreateOk) (indexNodeToken indexSpaceId : String)
    (existing : List (Option String))
    (acc : ManagerState × List (String × Nat × Nat)) (topic : Topic) :
    ManagerState × List (String × Nat × Nat) :=
  let pages := collectTopicPages acc.1.wikis search topic
  let r := pages.foldl (processPage co indexNodeToken indexSpaceId existing topic) (acc.1, 0, 0)
  (r.1, acc.2 ++ [(topic.id, r.2.1, r.2.2)])

/-- `updateIndexPage`: `none` models the thrown `Index page not found`.
The existing-link set is computed once, before the topic loop, and never
extended during the pass.  The returned log lists, per topic in order,
(topic id, created count, skipped count). -/
def updateIndexPage (search : SearchFn) (co : CreateOk) (st : ManagerState)
    (indexNodeToken : String) : Option (ManagerState × List (String × Nat × Nat)) :=
  match findIndexPage st.indexPages indexNodeToken with
  | none => none
  | some indexPage =>
      let existing := existingTokenSet st.children indexNodeToken
      some (indexPage.topics.foldl
        (processTopic search co indexNodeToken indexPage.spaceId existing) (st, []))

/-- One iteration of the `for (const indexToken of indexNodeTokens)` loop
of `addToMultipleIndexes`: attempt `createShortcut`; a failure is caught
and logged.  No `ShortcutInfo` is recorded in either case. -/
def bulkStep (co : CreateOk) (targetNodeToken targetSpaceId : String)
    (s : ManagerState) (idxTok : String) : ManagerState :=
  if co idxTok (some targetNodeToken) then
    { s with
        children := addChild s.children idxTok
          { node_type := "shortcut"
            origin_node_token := some targetNodeToken
            origin_space_id := targetSpaceId } }
  else s

/-- `addToMultipleIndexes`: create a shortcut under every given index
token (failures caught and logged per index). -/
def addToMultipleIndexes (co : CreateOk) (st : ManagerState)
    (targetNodeToken targetSpaceId : String) (indexNodeTokens : List String) : ManagerState :=
  indexNodeTokens.foldl (bulkStep co targetNodeToken targetSpaceId) st

/-- The statistics record built by `getStatistics`. -/
structure Statistics where
  totalWikis : Nat
  totalIndexPages : Nat
  totalShortcuts : Nat
  shortcutsByTopic : List (String × Nat)
  duplicatePages : List (Option String)
deriving Repr, DecidableEq

/-- `const count = map.get(topicId) || 0; map.set(topicId, count + 1)`. -/
def bumpTopic (m : List (String × Nat)) (k : String) : List (String × Nat) :=
  if m.any (fun e => e.1 == k) then
    m.map (fun e => if e.1 == k then (e.1, e.2 + 1) else e)
  else m ++ [(k, 1)]

/-- One iteration of the `for (const [nodeToken, shortcuts] of this.shortcuts)`
loop of `getStatistics`. -/
def statsStep (acc : Statistics) (entry : Option String × List ShortcutInfo) : Statistics :=
  { totalWikis := acc.totalWikis
    totalIndexPages := acc.totalIndexPages
    totalShortcuts := acc.totalShortcuts + entry.2.length
    shortcutsByTopic := entry.2.foldl (fun m s => bumpTopic m s.topicId) acc.shortcutsByTopic
    duplicatePages :=
      if 1 < entry.2.length then acc.duplicatePages ++ [entry.1] else acc.duplicatePages }

/-- `getStatistics`. -/
def getStatistics (st : ManagerState) : Statistics :=
  st.shortcuts.foldl statsStep
    { totalWikis := st.wikis.length
      totalIndexPages := st.indexPages.length
      totalShortcuts := 0
      shortcutsByTopic := []
      duplicatePages := [] }

/-- All recorded `ShortcutInfo` values, across every key of the
accumulated map. -/
def allInfos (m : List (Option String × List ShortcutInfo)) : List ShortcutInfo :=
  m.flatMap (fun e => e.2)

/-- Recursive rendering of the `removeDuplicates` loop: skip falsy and
already-seen keys, keep the first page carrying each fresh key. -/
def rdGo (seen : List String) : List Page → List Page
  | [] => []
  | p :: rest =>
      match dedupKey p with
      | none => rdGo seen rest
      | some k => if k ∈ seen then rdGo seen rest else p :: rdGo (k :: seen) rest

/-- A concrete run exercising two topics of one index page that share a
candidate: topic A searches keyword k1, topic B keyword k2, and both
searches return the same document T. -/
def topicA : Topic :=
  { id := "A", name := "Topic A", keywords := ["k1"]
    includePatterns := none, excludePatterns := none, priority := none }

def topicB : Topic :=
  { id := "B", name := "Topic B", keywords := ["k2"]
    includePatterns := none, excludePatterns := none, priority := none }

def pageT : Page :=
  { node_token := some "T", obj_token := none, title := "doc", content := ""
    space_id := some "S" }

def searchShared : SearchFn := fun _ kw =>
  if kw = "k1" ∨ kw = "k2" then some [pageT] else some []

def indexShared : IndexPage :=
  { nodeToken := "IDX", spaceId := "SP", title := "Index"
    topics := [topicA, topicB], autoUpdate := true }

def stShared : ManagerState :=
  { wikis := [{ spaceId := "W", spaceName := "Wiki", searchEnabled := true }]
    indexPages := [("IDX", indexShared)]
    shortcuts := []
    children := fun _ => [] }

/-- Create calls always succeed. -/
def coAll : CreateOk := fun _ _ => true

/-- The candidates of one topic that the pass actually creates links for:
not in the fixed existing set, and the create call succeeds. -/
def newPages (co : CreateOk) (idxTok : String) (existing : List (Option String))
    (pages : List Page) : List Page :=
  pages.filter (fun p => !(decide (jsTokenOf p ∈ existing)) && co idxTok (jsTokenOf p))

/-- How many candidates of a topic are skipped as already existing. -/
def skippedCount (existing : List (Option String)) (pages : List Page) : Nat :=
  (pages.filter (fun p => decide (jsTokenOf p ∈ existing))).length

/-- Fold `pushShortcut` over a list of (key, record) pairs. -/
def pushMany (m : List (Option String × List ShortcutInfo))
    (l : List (Option String × ShortcutInfo)) : List (Option String × List ShortcutInfo) :=
  l.foldl (fun acc kv => pushShortcut acc kv.1 kv.2) m

/-- The (key, record) pairs one topic appends during a pass. -/
def topicPairs (co : CreateOk) (idxTok sid : String) (existing : List (Option String))
    (t : Topic) (pages : List Page) : List (Option String × ShortcutInfo) :=
  (newPages co idxTok existing pages).map (fun p => (jsTokenOf p, mkInfo idxTok sid t p))

/-- All (key, record) pairs appended across the topics of a pass, in
processing order. -/
def runPairs (co : CreateOk) (idxTok sid : String) (existing : List (Option String))
    (wikis : List WikiInfo) (search : SearchFn) (topics : List Topic) :
    List (Option String × ShortcutInfo) :=
  topics.flatMap (fun t => topicPairs co idxTok sid existing t (collectTopicPages wikis search t))

/-- All shortcut children created under the index document across the
topics of a pass, in creation order. -/
def runChildren (co : CreateOk) (idxTok sid : String) (existing : List (Option String))
    (wikis : List WikiInfo) (search : SearchFn) (topics : List Topic) : List ChildNode :=
  topics.flatMap (fun t =>
    (newPages co idxTok existing (collectTopicPages wikis search t)).map (mkChild sid))

/-- A pre-existing remote shortcut child for document T. -/
def childT : ChildNode :=
  { node_type := "shortcut", origin_node_token := some "T", origin_space_id := "S" }

/-- A one-topic index page whose only candidate T is already linked. -/
def indexSingle : IndexPage :=
  { nodeToken := "IDX1", spaceId := "SP", title := "Index1", topics := [topicA]
    autoUpdate := true }

def stPre : ManagerState :=
  { wikis := [{ spaceId := "W", spaceName := "Wiki", searchEnabled := true }]
    indexPages := [("IDX1", indexSingle)]
    shortcuts := []
    children := fun t => if t = "IDX1" then [childT] else [] }

def searchA : SearchFn := fun _ kw => if kw = "k1" then some [pageT] else some []

/-- Further documents U and V for the failure-isolation scenario. -/
def pageU : Page :=
  { node_token := some "U", obj_token := none, title := "u", content := ""
    space_id := some "S" }

def pageV : Page :=
  { node_token := some "V", obj_token := none, title := "v", content := ""
    space_id := some "S" }

def topicC : Topic :=
  { id := "C", name := "Topic C", keywords := ["kc"]
    includePatterns := none, excludePatterns := none, priority := none }

def searchTriple : SearchFn := fun _ kw =>
  if kw = "kc" then some [pageT, pageU, pageV] else some []

def indexTriple : IndexPage :=
  { nodeToken := "IDX3", spaceId := "SP", title := "Index3", topics := [topicC]
    autoUpdate := true }

def stTriple : ManagerState :=
  { wikis := [{ spaceId := "W", spaceName := "Wiki", searchEnabled := true }]
    indexPages := [("IDX3", indexTriple)]
    shortcuts := []
    children := fun _ => [] }

/-- An oracle whose create call throws exactly on the middle candidate U. -/
def coFailU : CreateOk := fun _ tok => !(tok == some "U")

/-- A pattern matching every text, and one matching exactly the text of
`pageX` below. -/
def patAll : Pattern := fun _ => true

def patTC : Pattern := fun s => s == "t c"

/-- A topic whose include and exclude patterns both match `pageX`. -/
def topicX : Topic :=
  { id := "X", name := "Topic X", keywords := ["k"]
    includePatterns := some [patAll]
    excludePatterns := some [patTC]
    priority := none }

def pageX : Page :=
  { node_token := some "N", obj_token := none, title := "T", content := "C"
    space_id := none }

theorem rdGo_cons_none {seen : List String} {p : Page} {rest : List Page}
    (h : dedupKey p = none) : rdGo seen (p :: rest) = rdGo seen rest := by
  simp only [rdGo, h]

theorem rdGo_cons_mem {seen : List String} {p : Page} {rest : List Page} {k : String}
    (h : dedupKey p = some k) (hm : k ∈ seen) : rdGo seen (p :: rest) = rdGo seen rest := by
  simp only [rdGo, h, if_pos hm]

theorem rdGo_cons_new {seen : List String} {p : Page} {rest : List Page} {k : String}
    (h : dedupKey p = some k) (hm : k ∉ seen) :
    rdGo seen (p :: rest) = p :: rdGo (k :: seen) rest := by
  simp only [rdGo, h, if_neg hm]

theorem removeDuplicates_foldl (l : List Page) :
    ∀ (kept : List Page) (s s' : List String), (∀ k, k ∈ s ↔ k ∈ s') →
      (l.foldl
        (fun (acc : List Page × List String) page =>
          match dedupKey page with
          | none => acc
          | some k => if k ∈ acc.2 then acc else (acc.1 ++ [page], acc.2 ++ [k]))
        (kept, s)).1
      = kept ++ rdGo s' l := by
  induction l with
  | nil => intro kept s s' _; simp [rdGo]
  | cons p rest ih =>
      intro kept s s' hs
      simp only [List.foldl_cons]
      cases hk : dedupKey p with
      | none => simp only [hk, rdGo]; exact ih kept s s' hs
      | some k =>
          by_cases hmem : k ∈ s
          · have hmem' : k ∈ s' := (hs k).mp hmem
            simp only [hk, rdGo, if_pos hmem, if_pos hmem']
            exact ih kept s s' hs
          · have hmem' : k ∉ s' := fun h => hmem ((hs k).mpr h)
            simp only [hk, rdGo, if_neg hmem, if_neg hmem']
            have hiff : ∀ x, x ∈ s ++ [k] ↔ x ∈ k :: s' := by
              intro x
              simp [List.mem_append, List.mem_cons, hs x, or_comm]
            rw [ih (kept ++ [p]) (s ++ [k]) (k :: s') hiff]
            simp

theorem removeDuplicates_eq_rdGo (l : List Page) : removeDuplicates l = rdGo [] l := by
  have := removeDuplicates_foldl l [] [] [] (by intro k; rfl)
  simpa [removeDuplicates] using this

theorem rdGo_key_isSome :
    ∀ (l : List Page) (seen : List String) (p : Page),
      p ∈ rdGo seen l → (dedupKey p).isSome := by
  intro l
  induction l with
  | nil => intro seen p h; simp [rdGo] at h
  | cons q rest ih =>
      intro seen p h
      cases hk : dedupKey q with
      | none =>
          simp only [rdGo, hk] at h
          exact ih seen p h
      | some k =>
          simp only [rdGo, hk] at h
          by_cases hmem : k ∈ seen
          · simp only [if_pos hmem] at h
            exact ih seen p h
          · simp only [if_neg hmem] at h
            rcases List.mem_cons.mp h with h1 | h2
            · rw [h1, hk]; rfl
            · exact ih (k :: seen) p h2

theorem rdGo_filter_key (k : String) :
    ∀ (l : List Page) (seen : List String),
      (rdGo seen l).filter (fun p => dedupKey p == some k)
        = if k ∈ seen then [] else (l.filter (fun p => dedupKey p == some k)).take 1 := by
  intro l
  induction l with
  | nil => intro seen; simp [rdGo]
  | cons p rest ih =>
      intro seen
      cases hk : dedupKey p with
      | none => simp [rdGo_cons_none hk, hk, List.filter_cons, ih]
      | some k' =>
          by_cases hk' : k' = k
          · subst hk'
            by_cases hmem : k' ∈ seen
            · simp [rdGo_cons_mem hk hmem, hk, hmem, List.filter_cons, ih]
            · have hrec := ih (k' :: seen)
              simp only [List.mem_cons, true_or, if_true] at hrec
              simp [rdGo_cons_new hk hmem, hk, hmem, List.filter_cons, hrec]
          · have hkk : (k = k') = False := by
              simp only [eq_iff_iff, iff_false]
              exact fun h => hk' h.symm
            by_cases hmem : k' ∈ seen
            · simp [rdGo_cons_mem hk hmem, hk, hmem, List.filter_cons, ih, hk']
            · have hrec := ih (k' :: seen)
              simp only [List.mem_cons, hkk, false_or] at hrec
              simp [rdGo_cons_new hk hmem, hk, hmem, List.filter_cons, hrec, hk']

theorem find_eq_head_filter (pr : Page → Bool) :
    ∀ l : List Page, l.find? pr = (l.filter pr).head? := by
  intro l
  induction l with
  | nil => rfl
  | cons p rest ih =>
      cases hp : pr p
      · rw [List.find?_cons_of_neg _ (by simp [hp]), List.filter_cons_of_neg (by simp [hp]), ih]
      · rw [List.find?_cons_of_pos _ hp, List.filter_cons_of_pos hp, List.head?_cons]

theorem head_take_one {α : Type} (l : List α) : (l.take 1).head? = l.head? := by
  cases l <;> rfl

/-- C8: a topic crawl deduplicates the merged accepted items by canonical
identity before returning candidates.  For every identity `k`: the
returned candidate set contains an item with identity `k` exactly once
when the merged crawl produced any such item (and never otherwise), and
the candidate kept is literally the first item with that identity in the
merged keyword/collection order — later duplicates are dropped, not
merged. -/
theorem collectTopicPages_dedups_first_occurrence_wins
    (wikis : List WikiInfo) (search : SearchFn) (topic : Topic) (k : String) :
    ((collectTopicPages wikis search topic).filter (fun p => dedupKey p == some k)).length
        = (if (collectAllPages wikis search topic).any (fun p => dedupKey p == some k)
            then 1 else 0)
    ∧ (collectTopicPages wikis search topic).find? (fun p => dedupKey p == some k)
        = (collectAllPages wikis search topic).find? (fun p => dedupKey p == some k) := by
  constructor
  · rw [collectTopicPages, removeDuplicates_eq_rdGo, rdGo_filter_key]
    simp only [List.not_mem_nil, if_false, List.length_take]
    by_cases hany : (collectAllPages wikis search topic).any (fun p => dedupKey p == some k)
    · rw [if_pos hany]
      rcases List.any_eq_true.mp hany with ⟨p, hp, hkey⟩
      have : p ∈ (collectAllPages wikis search topic).filter (fun p => dedupKey p == some k) :=
        List.mem_filter.mpr ⟨hp, hkey⟩
      have hlen : 1 ≤ ((collectAllPages wikis search topic).filter
          (fun p => dedupKey p == some k)).length := List.length_pos.mpr (by
        intro hnil
        rw [hnil] at this
        exact List.not_mem_nil p this)
      omega
    · rw [if_neg hany]
      have : (collectAllPages wikis search topic).filter (fun p => dedupKey p == some k) = [] := by
        rw [List.filter_eq_nil_iff]
        intro p hp hkey
        exact hany (List.any_eq_true.mpr ⟨p, hp, hkey⟩)
      rw [this]
      simp
  · rw [collectTopicPages, removeDuplicates_eq_rdGo, find_eq_head_filter, find_eq_head_filter,
      rdGo_filter_key]
    simp only [List.not_mem_nil, if_false]
    exact head_take_one _

/-- C10: a discovered item with neither a truthy primary object token nor
a truthy secondary token has no canonical identity key, and
`removeDuplicates` silently drops it: it never appears in the returned
candidate set. -/
theorem tokenless_item_never_kept (pages : List Page) (p : Page)
    (h1 : strTruthy p.node_token = none) (h2 : strTruthy p.obj_token = none) :
    p ∉ removeDuplicates pages := by
  rw [removeDuplicates_eq_rdGo]
  intro hmem
  have hsome := rdGo_key_isSome pages [] p hmem
  have hkey : dedupKey p = none := by
    have hjs : jsTokenOf p = p.obj_token := by
      rw [jsTokenOf, h1]
    rw [dedupKey, hjs, h2]
  rw [hkey] at hsome
  exact Bool.noConfusion hsome

/-- Witness for C10 at a concrete tokenless item (both tokens falsy). -/
theorem tokenless_item_never_kept_witness :
    strTruthy (Page.mk (some "") none "t" "c" none).node_token = none
    ∧ strTruthy (Page.mk (some "") none "t" "c" none).obj_token = none
    ∧ (Page.mk (some "") none "t" "c" none)
        ∉ removeDuplicates [Page.mk (some "") none "t" "c" none] :=
  ⟨by decide, by decide,
    tokenless_item_never_kept _ _ (by decide) (by decide)⟩

/-- C1: the claimed at-most-one-ShortcutRecord-per-(index, target)-pair
invariant fails on the code.  The existing-link set is computed once
before the topic loop and never extended with tokens created during the
pass, so when the same target T is a candidate of both topics of the
page, one invocation of `updateIndexPage` creates two reference links
and appends two ShortcutRecords for the pair (IDX, T) — this evaluation
exhibits the duplicated pair. -/
theorem updateIndexPage_duplicates_pair_across_topics :
    (updateIndexPage searchShared coAll stShared "IDX").map (fun r => r.1.shortcuts)
        = some [(some "T", [mkInfo "IDX" "SP" topicA pageT, mkInfo "IDX" "SP" topicB pageT])]
    ∧ (mkInfo "IDX" "SP" topicA pageT).indexNodeToken
        = (mkInfo "IDX" "SP" topicB pageT).indexNodeToken
    ∧ (mkInfo "IDX" "SP" topicA pageT).targetNodeToken
        = (mkInfo "IDX" "SP" topicB pageT).targetNodeToken := by
  refine ⟨by decide, by decide, by decide⟩

theorem statsStep_duplicatePages (l : List (Option String × List ShortcutInfo)) :
    ∀ acc : Statistics,
      (l.foldl statsStep acc).duplicatePages
        = acc.duplicatePages ++ (l.filter (fun e => decide (1 < e.2.length))).map (fun e => e.1) := by
  induction l with
  | nil => intro acc; simp
  | cons e rest ih =>
      intro acc
      rw [List.foldl_cons, ih, List.filter_cons]
      by_cases h : 1 < e.2.length
      · simp [statsStep, h]
      · simp [statsStep, h]

/-- C5 counterexample: after the two-topic run above, target T has two
accumulated ShortcutRecords, both attached to the single index document
IDX (only one distinct index-node identity), yet `getStatistics()`
reports T in `duplicatePages` — so `duplicatePages` is not the set of
identities attached to more than one distinct index document. -/
theorem duplicatePages_single_index_counterexample :
    (updateIndexPage searchShared coAll stShared "IDX").map
        (fun r => ((getStatistics r.1).duplicatePages,
                   (allInfos r.1.shortcuts).map (fun i => i.indexNodeToken)))
      = some ([some "T"], ["IDX", "IDX"]) := by
  decide

/-- C5 as amended: `duplicatePages` contains exactly the identities that
carry more than one accumulated ShortcutRecord (a record count of at
least two under that identity), regardless of whether the records name
distinct index documents. -/
theorem duplicatePages_iff_record_count
    (st : ManagerState) (k : Option String) :
    k ∈ (getStatistics st).duplicatePages
      ↔ ∃ e ∈ st.shortcuts, e.1 = k ∧ 1 < e.2.length := by
  rw [getStatistics, statsStep_duplicatePages]
  simp only [List.nil_append, List.mem_map, List.mem_filter, decide_eq_true_eq]
  constructor
  · rintro ⟨e, ⟨he, hlen⟩, rfl⟩
    exact ⟨e, he, rfl, hlen⟩
  · rintro ⟨e, he, rfl, hlen⟩
    exact ⟨e, ⟨he, hlen⟩, rfl⟩

/-- C6: exclude dominates include.  Whenever any exclude pattern of the
topic matches the lower-cased concatenation of a discovered item's title
and content, the filter predicate rejects the item and it never appears
in `filterResults` — no matter what the include patterns say about the
same text. -/
theorem exclude_dominates_include (topic : Topic) (results : List Page) (r : Page)
    (hex : ∃ pat ∈ topic.excludePatterns.getD [],
        pat (lowerStr (r.title ++ " " ++ r.content)) = true) :
    keepResult topic r = false ∧ r ∉ filterResults results topic := by
  have hany : (topic.excludePatterns.getD []).any
      (fun pat => pat (lowerStr (r.title ++ " " ++ r.content))) = true := by
    rcases hex with ⟨pat, hmem, hpat⟩
    exact List.any_eq_true.mpr ⟨pat, hmem, hpat⟩
  have hk : keepResult topic r = false := by
    simp only [keepResult]
    rw [if_pos hany]
  refine ⟨hk, fun hmem => ?_⟩
  rw [filterResults] at hmem
  have := (List.mem_filter.mp hmem).2
  rw [hk] at this
  exact Bool.noConfusion this

/-- Witness for C6: `pageX` matches both an include pattern and an
exclude pattern of `topicX`, and is rejected. -/
theorem exclude_dominates_include_witness :
    (∃ pat ∈ topicX.excludePatterns.getD [],
        pat (lowerStr (pageX.title ++ " " ++ pageX.content)) = true)
    ∧ (∃ pat ∈ topicX.includePatterns.getD [],
        pat (lowerStr (pageX.title ++ " " ++ pageX.content)) = true)
    ∧ keepResult topicX pageX = false
    ∧ pageX ∉ filterResults [pageX] topicX := by
  have h := exclude_dominates_include topicX [pageX] pageX
    ⟨patTC, by simp [topicX], by decide⟩
  exact ⟨⟨patTC, by simp [topicX], by decide⟩, ⟨patAll, by simp [topicX], rfl⟩, h.1, h.2⟩

theorem addToMultipleIndexes_components (co : CreateOk) (tgt sid : String) :
    ∀ (idxs : List String) (st : ManagerState),
      (addToMultipleIndexes co st tgt sid idxs).wikis = st.wikis
      ∧ (addToMultipleIndexes co st tgt sid idxs).indexPages = st.indexPages
      ∧ (addToMultipleIndexes co st tgt sid idxs).shortcuts = st.shortcuts := by
  intro idxs
  induction idxs with
  | nil => intro st; exact ⟨rfl, rfl, rfl⟩
  | cons i rest ih =>
      intro st
      have hunf : addToMultipleIndexes co st tgt sid (i :: rest)
          = addToMultipleIndexes co (bulkStep co tgt sid st i) tgt sid rest := rfl
      have hcomp : (bulkStep co tgt sid st i).wikis = st.wikis
          ∧ (bulkStep co tgt sid st i).indexPages = st.indexPages
          ∧ (bulkStep co tgt sid st i).shortcuts = st.shortcuts := by
        rw [bulkStep]
        by_cases h : co i (some tgt)
        · rw [if_pos h]; exact ⟨rfl, rfl, rfl⟩
        · rw [if_neg h]; exact ⟨rfl, rfl, rfl⟩
      obtain ⟨hw, hip, hsc⟩ := ih (bulkStep co tgt sid st i)
      rw [hunf, hw, hip, hsc]
      exact hcomp

theorem processPage_skip {co : CreateOk} {idxTok sid : String}
    {existing : List (Option String)} {t : Topic} {acc : ManagerState × Nat × Nat} {page : Page}
    (h : jsTokenOf page ∈ existing) :
    processPage co idxTok sid existing t acc page = (acc.1, acc.2.1, acc.2.2 + 1) := by
  simp only [processPage]
  rw [if_pos h]

theorem processPage_create {co : CreateOk} {idxTok sid : String}
    {existing : List (Option String)} {t : Topic} {acc : ManagerState × Nat × Nat} {page : Page}
    (h : jsTokenOf page ∉ existing) (hco : co idxTok (jsTokenOf page) = true) :
    processPage co idxTok sid existing t acc page
      = ({ acc.1 with
            children := addChild acc.1.children idxTok (mkChild sid page)
            shortcuts := pushShortcut acc.1.shortcuts (jsTokenOf page)
              (mkInfo idxTok sid t page) },
         acc.2.1 + 1, acc.2.2) := by
  simp only [processPage]
  rw [if_neg h, if_pos hco]

theorem processPage_fail {co : CreateOk} {idxTok sid : String}
    {existing : List (Option String)} {t : Topic} {acc : ManagerState × Nat × Nat} {page : Page}
    (h : jsTokenOf page ∉ existing) (hco : co idxTok (jsTokenOf page) = false) :
    processPage co idxTok sid existing t acc page = (acc.1, acc.2.1, acc.2.2) := by
  simp only [processPage]
  rw [if_neg h, if_neg (by simp [hco])]

theorem processPage_foldl_spec (co : CreateOk) (idxTok sid : String)
    (existing : List (Option String)) (t : Topic) :
    ∀ (pages : List Page) (st : ManagerState) (c s : Nat),
      (pages.foldl (processPage co idxTok sid existing t) (st, c, s)).1.wikis = st.wikis
      ∧ (pages.foldl (processPage co idxTok sid existing t) (st, c, s)).1.indexPages
          = st.indexPages
      ∧ (pages.foldl (processPage co idxTok sid existing t) (st, c, s)).1.shortcuts
          = pushMany st.shortcuts (topicPairs co idxTok sid existing t pages)
      ∧ (∀ tok, (pages.foldl (processPage co idxTok sid existing t) (st, c, s)).1.children tok
          = st.children tok
            ++ (if tok = idxTok then (newPages co idxTok existing pages).map (mkChild sid)
                else []))
      ∧ (pages.foldl (processPage co idxTok sid existing t) (st, c, s)).2.1
          = c + (newPages co idxTok existing pages).length
      ∧ (pages.foldl (processPage co idxTok sid existing t) (st, c, s)).2.2
          = s + skippedCount existing pages := by
  intro pages
  induction pages with
  | nil =>
      intro st c s
      refine ⟨rfl, rfl, ?_, ?_, ?_, ?_⟩
      · simp [topicPairs, newPages, pushMany]
      · intro tok; simp [newPages]
      · simp [newPages]
      · simp [skippedCount]
  | cons p rest ih =>
      intro st c s
      rw [List.foldl_cons]
      by_cases hmem : jsTokenOf p ∈ existing
      · rw [processPage_skip hmem]
        obtain ⟨hw, hip, hsc, hch, hc, hs⟩ := ih st c (s + 1)
        have hnp : newPages co idxTok existing (p :: rest) = newPages co idxTok existing rest := by
          rw [newPages, List.filter_cons]
          simp [hmem, newPages]
        have hsk : skippedCount existing (p :: rest) = skippedCount existing rest + 1 := by
          rw [skippedCount, List.filter_cons]
          simp [hmem, skippedCount]
        have htp : topicPairs co idxTok sid existing t (p :: rest)
            = topicPairs co idxTok sid existing t rest := by
          rw [topicPairs, topicPairs, hnp]
        refine ⟨hw, hip, ?_, ?_, ?_, ?_⟩
        · rw [hsc, htp]
        · intro tok; rw [hch tok, hnp]
        · rw [hc, hnp]
        · rw [hs, hsk]; omega
      · cases hco : co idxTok (jsTokenOf p) with
        | false =>
            rw [processPage_fail hmem hco]
            obtain ⟨hw, hip, hsc, hch, hc, hs⟩ := ih st c s
            have hnp : newPages co idxTok existing (p :: rest)
                = newPages co idxTok existing rest := by
              rw [newPages, List.filter_cons]
              simp [hmem, hco, newPages]
            have hsk : skippedCount existing (p :: rest) = skippedCount existing rest := by
              rw [skippedCount, List.filter_cons]
              simp [hmem, skippedCount]
            have htp : topicPairs co idxTok sid existing t (p :: rest)
                = topicPairs co idxTok sid existing t rest := by
              rw [topicPairs, topicPairs, hnp]
            refine ⟨hw, hip, ?_, ?_, ?_, ?_⟩
            · rw [hsc, htp]
            · intro tok; rw [hch tok, hnp]
            · rw [hc, hnp]
            · rw [hs, hsk]
        | true =>
            rw [processPage_create hmem hco]
            obtain ⟨hw, hip, hsc, hch, hc, hs⟩ :=
              ih { st with
                     children := addChild st.children idxTok (mkChild sid p)
                     shortcuts := pushShortcut st.shortcuts (jsTokenOf p)
                       (mkInfo idxTok sid t p) } (c + 1) s
            have hnp : newPages co idxTok existing (p :: rest)
                = p :: newPages co idxTok existing rest := by
              rw [newPages, List.filter_cons]
              simp [hmem, hco, newPages]
            have hsk : skippedCount existing (p :: rest) = skippedCount existing rest := by
              rw [skippedCount, List.filter_cons]
              simp [hmem, skippedCount]
            have htp : topicPairs co idxTok sid existing t (p :: rest)
                = (jsTokenOf p, mkInfo idxTok sid t p) :: topicPairs co idxTok sid existing t rest := by
              rw [topicPairs, topicPairs, hnp, List.map_cons]
            have hpm : pushMany st.shortcuts
                  ((jsTokenOf p, mkInfo idxTok sid t p) :: topicPairs co idxTok sid existing t rest)
                = pushMany (pushShortcut st.shortcuts (jsTokenOf p) (mkInfo idxTok sid t p))
                    (topicPairs co idxTok sid existing t rest) := rfl
            refine ⟨hw, hip, ?_, ?_, ?_, ?_⟩
            · rw [hsc, htp, hpm]
            · intro tok
              rw [hch tok, hnp]
              by_cases htok : tok = idxTok
              · simp [htok, addChild, List.map_cons, List.append_assoc]
              · simp [htok, addChild]
            · rw [hc, hnp]
              simp only [List.length_cons]
              omega
            · rw [hs, hsk]

theorem pushMany_append (m : List (Option String × List ShortcutInfo))
    (a b : List (Option String × ShortcutInfo)) :
    pushMany m (a ++ b) = pushMany (pushMany m a) b := by
  rw [pushMany, pushMany, pushMany, List.foldl_append]

theorem processTopic_foldl_spec (search : SearchFn) (co : CreateOk) (idxTok sid : String)
    (existing : List (Option String)) :
    ∀ (topics : List Topic) (st : ManagerState) (log : List (String × Nat × Nat)),
      (topics.foldl (processTopic search co idxTok sid existing) (st, log)).1.wikis = st.wikis
      ∧ (topics.foldl (processTopic search co idxTok sid existing) (st, log)).1.indexPages
          = st.indexPages
      ∧ (topics.foldl (processTopic search co idxTok sid existing) (st, log)).1.shortcuts
          = pushMany st.shortcuts (runPairs co idxTok sid existing st.wikis search topics)
      ∧ (∀ tok,
          (topics.foldl (processTopic search co idxTok sid existing) (st, log)).1.children tok
            = st.children tok
              ++ (if tok = idxTok then runChildren co idxTok sid existing st.wikis search topics
                  else []))
      ∧ (topics.foldl (processTopic search co idxTok sid existing) (st, log)).2
          = log ++ topics.map (fun t =>
              (t.id,
               (newPages co idxTok existing (collectTopicPages st.wikis search t)).length,
               skippedCount existing (collectTopicPages st.wikis search t))) := by
  intro topics
  induction topics with
  | nil =>
      intro st log
      refine ⟨rfl, rfl, ?_, ?_, ?_⟩
      · simp [runPairs, pushMany]
      · intro tok; simp [runChildren]
      · simp
  | cons t rest ih =>
      intro st log
      rw [List.foldl_cons]
      obtain ⟨pw, pip, psc, pch, pc, ps⟩ :=
        processPage_foldl_spec co idxTok sid existing t
          (collectTopicPages st.wikis search t) st 0 0
      set r := (collectTopicPages st.wikis search t).foldl
        (processPage co idxTok sid existing t) (st, 0, 0) with hr
      have hstep : processTopic search co idxTok sid existing (st, log) t
          = (r.1, log ++ [(t.id, r.2.1, r.2.2)]) := rfl
      rw [hstep]
      obtain ⟨hw, hip, hsc, hch, hlog⟩ := ih r.1 (log ++ [(t.id, r.2.1, r.2.2)])
      have hwr : r.1.wikis = st.wikis := pw
      have hrp : runPairs co idxTok sid existing st.wikis search (t :: rest)
          = topicPairs co idxTok sid existing t (collectTopicPages st.wikis search t)
              ++ runPairs co idxTok sid existing st.wikis search rest := by
        rw [runPairs, runPairs, List.flatMap_cons]
      have hrc : runChildren co idxTok sid existing st.wikis search (t :: rest)
          = (newPages co idxTok existing (collectTopicPages st.wikis search t)).map (mkChild sid)
              ++ runChildren co idxTok sid existing st.wikis search rest := by
        rw [runChildren, runChildren, List.flatMap_cons]
      refine ⟨by rw [hw, hwr], by rw [hip, pip], ?_, ?_, ?_⟩
      · rw [hsc, hwr, psc, hrp, pushMany_append]
      · intro tok
        rw [hch tok, hwr, pch tok, hrc]
        by_cases htok : tok = idxTok
        · simp [htok, List.append_assoc]
        · simp [htok]
      · rw [hlog, hwr, pc, ps]
        simp [List.map_cons, List.append_assoc]

/-- Master characterization of one `updateIndexPage` pass on a registered
index document: the pass never aborts, the registries are untouched, the
record map is extended by exactly the pairs of `runPairs` against the
initial existing-link set, the remote gains exactly the corresponding
shortcut children under the index document, and the per-topic log counts
created and skipped candidates. -/
theorem updateIndexPage_spec (search : SearchFn) (co : CreateOk) (st : ManagerState)
    (idxTok : String) (ip : IndexPage)
    (hip : findIndexPage st.indexPages idxTok = some ip) :
    ∃ st' log, updateIndexPage search co st idxTok = some (st', log)
      ∧ st'.wikis = st.wikis
      ∧ st'.indexPages = st.indexPages
      ∧ st'.shortcuts = pushMany st.shortcuts
          (runPairs co idxTok ip.spaceId (existingTokenSet st.children idxTok)
            st.wikis search ip.topics)
      ∧ (∀ tok, st'.children tok = st.children tok
          ++ (if tok = idxTok then
                runChildren co idxTok ip.spaceId (existingTokenSet st.children idxTok)
                  st.wikis search ip.topics
              else []))
      ∧ log = ip.topics.map (fun t =>
          (t.id,
           (newPages co idxTok (existingTokenSet st.children idxTok)
             (collectTopicPages st.wikis search t)).length,
           skippedCount (existingTokenSet st.children idxTok)
             (collectTopicPages st.wikis search t))) := by
  obtain ⟨hw, hipres, hsc, hch, hlog⟩ :=
    processTopic_foldl_spec search co idxTok ip.spaceId
      (existingTokenSet st.children idxTok) ip.topics st []
  refine ⟨(ip.topics.foldl
            (processTopic search co idxTok ip.spaceId (existingTokenSet st.children idxTok))
            (st, [])).1,
          (ip.topics.foldl
            (processTopic search co idxTok ip.spaceId (existingTokenSet st.children idxTok))
            (st, [])).2,
          ?_, hw, hipres, hsc, hch, ?_⟩
  · rw [updateIndexPage, hip]
  · rw [hlog, List.nil_append]

theorem mem_allInfos_pushShortcut_new (m : List (Option String × List ShortcutInfo))
    (k : Option String) (v : ShortcutInfo) : v ∈ allInfos (pushShortcut m k v) := by
  rw [pushShortcut]
  by_cases h : m.any (fun e => e.1 == k)
  · rw [if_pos h, allInfos]
    rcases List.any_eq_true.mp h with ⟨e, he, hek⟩
    apply List.mem_flatMap.mpr
    refine ⟨(e.1, e.2 ++ [v]), List.mem_map.mpr ⟨e, he, if_pos hek⟩, ?_⟩
    simp
  · rw [if_neg h, allInfos]
    apply List.mem_flatMap.mpr
    exact ⟨(k, [v]), by simp, by simp⟩

theorem mem_allInfos_pushShortcut_old (m : List (Option String × List ShortcutInfo))
    (k : Option String) (v : ShortcutInfo) (x : ShortcutInfo)
    (hx : x ∈ allInfos m) : x ∈ allInfos (pushShortcut m k v) := by
  rw [allInfos] at hx
  rcases List.mem_flatMap.mp hx with ⟨e, he, hxe⟩
  rw [pushShortcut]
  by_cases h : m.any (fun e => e.1 == k)
  · rw [if_pos h, allInfos]
    apply List.mem_flatMap.mpr
    by_cases hek : (e.1 == k) = true
    · exact ⟨(e.1, e.2 ++ [v]), List.mem_map.mpr ⟨e, he, if_pos hek⟩,
        List.mem_append.mpr (Or.inl hxe)⟩
    · exact ⟨e, List.mem_map.mpr ⟨e, he, if_neg hek⟩, hxe⟩
  · rw [if_neg h, allInfos]
    exact List.mem_flatMap.mpr ⟨e, List.mem_append.mpr (Or.inl he), hxe⟩

theorem mem_allInfos_pushMany_old (l : List (Option String × ShortcutInfo)) :
    ∀ (m : List (Option String × List ShortcutInfo)) (x : ShortcutInfo),
      x ∈ allInfos m → x ∈ allInfos (pushMany m l) := by
  induction l with
  | nil => intro m x hx; exact hx
  | cons kv rest ih =>
      intro m x hx
      rw [pushMany, List.foldl_cons]
      exact ih (pushShortcut m kv.1 kv.2) x (mem_allInfos_pushShortcut_old m kv.1 kv.2 x hx)

theorem mem_allInfos_pushMany_of_mem (l : List (Option String × ShortcutInfo)) :
    ∀ (m : List (Option String × List ShortcutInfo)) (k : Option String) (v : ShortcutInfo),
      (k, v) ∈ l → v ∈ allInfos (pushMany m l) := by
  induction l with
  | nil => intro m k v h; exact absurd h (List.not_mem_nil (k, v))
  | cons kv rest ih =>
      intro m k v h
      rcases List.mem_cons.mp h with h1 | h2
      · rw [pushMany, List.foldl_cons, ← h1]
        exact mem_allInfos_pushMany_old rest (pushShortcut m k v) v
          (mem_allInfos_pushShortcut_new m k v)
      · rw [pushMany, List.foldl_cons]
        exact ih (pushShortcut m kv.1 kv.2) k v h2

/-- C7: a single candidate's failed link creation is absorbed at the item
level.  On any registered index page, whatever the create-success oracle
(so, in particular, when some create calls throw), the pass still returns
normally — it never aborts — and every other candidate of every topic
whose create call succeeds still gets its ShortcutRecord appended. -/
theorem item_failure_isolated (search : SearchFn) (co : CreateOk) (st : ManagerState)
    (idxTok : String) (ip : IndexPage)
    (hip : findIndexPage st.indexPages idxTok = some ip) :
    ∃ st' log, updateIndexPage search co st idxTok = some (st', log)
      ∧ ∀ t ∈ ip.topics, ∀ p ∈ collectTopicPages st.wikis search t,
          jsTokenOf p ∉ existingTokenSet st.children idxTok →
          co idxTok (jsTokenOf p) = true →
          mkInfo idxTok ip.spaceId t p ∈ allInfos st'.shortcuts := by
  obtain ⟨st', log, hupd, hw, hipres, hsc, hch, hlog⟩ :=
    updateIndexPage_spec search co st idxTok ip hip
  refine ⟨st', log, hupd, ?_⟩
  intro t ht p hp hnot hco
  rw [hsc]
  apply mem_allInfos_pushMany_of_mem _ _ (jsTokenOf p)
  rw [runPairs]
  apply List.mem_flatMap.mpr
  refine ⟨t, ht, ?_⟩
  rw [topicPairs]
  apply List.mem_map.mpr
  refine ⟨p, ?_, rfl⟩
  rw [newPages]
  apply List.mem_filter.mpr
  refine ⟨hp, ?_⟩
  simp [hnot, hco]

/-- Witness for C7: a three-candidate topic whose middle candidate's
create call throws; the pass returns normally and the other successful
candidates keep their records. -/
theorem item_failure_isolated_witness :
    ∃ st' log, updateIndexPage searchTriple coFailU stTriple "IDX3" = some (st', log)
      ∧ ∀ t ∈ indexTriple.topics, ∀ p ∈ collectTopicPages stTriple.wikis searchTriple t,
          jsTokenOf p ∉ existingTokenSet stTriple.children "IDX3" →
          coFailU "IDX3" (jsTokenOf p) = true →
          mkInfo "IDX3" indexTriple.spaceId t p ∈ allInfos st'.shortcuts :=
  item_failure_isolated searchTriple coFailU stTriple "IDX3" indexTriple rfl

/-- Every child created during a pass is shortcut-typed. -/
theorem runChildren_node_type (co : CreateOk) (idxTok sid : String)
    (existing : List (Option String)) (wikis : List WikiInfo) (search : SearchFn)
    (topics : List Topic) :
    ∀ c ∈ runChildren co idxTok sid existing wikis search topics,
      c.node_type = "shortcut" := by
  intro c hc
  rw [runChildren] at hc
  rcases List.mem_flatMap.mp hc with ⟨t, _, hmap⟩
  rcases List.mem_map.mp hmap with ⟨p, _, rfl⟩
  rfl

/-- C2: idempotency of back-to-back runs.  After a completed first run
in which every create call succeeded, a second `updateIndexPage` run
against the unchanged search results finds every candidate's identity in
the (re-read) existing-link set: it appends zero new ShortcutRecords,
leaves `getStatistics().totalShortcuts` unchanged, and its log shows,
per topic, zero creations and every candidate skipped.  The page-size
hypothesis keeps the one `LIST_NODES` page (500 entries) covering all
children of the index document. -/
theorem second_run_is_idempotent (search : SearchFn) (co : CreateOk) (st : ManagerState)
    (idxTok : String) (ip : IndexPage)
    (hip : findIndexPage st.indexPages idxTok = some ip)
    (hco : ∀ tok, co idxTok tok = true)
    (st1 : ManagerState) (log1 : List (String × Nat × Nat))
    (h1 : updateIndexPage search co st idxTok = some (st1, log1))
    (hlen : (st1.children idxTok).length ≤ 500) :
    ∃ st2 log2, updateIndexPage search co st1 idxTok = some (st2, log2)
      ∧ st2.shortcuts = st1.shortcuts
      ∧ (getStatistics st2).totalShortcuts = (getStatistics st1).totalShortcuts
      ∧ log2 = ip.topics.map (fun t =>
          (t.id, 0, (collectTopicPages st.wikis search t).length)) := by
  obtain ⟨st1a, log1a, hupd, hw, hipres, hsc, hch, hlog⟩ :=
    updateIndexPage_spec search co st idxTok ip hip
  obtain ⟨hst1, hlog1⟩ := Prod.mk.injEq .. |>.mp (Option.some.inj (h1.symm.trans hupd))
  subst hst1 hlog1
  clear hupd hsc hlog
  have hchi : st1.children idxTok
      = st.children idxTok
        ++ runChildren co idxTok ip.spaceId (existingTokenSet st.children idxTok)
             st.wikis search ip.topics := by
    rw [hch idxTok, if_pos rfl]
  have hlen0 : (st.children idxTok).length ≤ 500 := by
    rw [hchi, List.length_append] at hlen
    omega
  have hfRC : (runChildren co idxTok ip.spaceId (existingTokenSet st.children idxTok)
        st.wikis search ip.topics).filter (fun item => item.node_type = "shortcut")
      = runChildren co idxTok ip.spaceId (existingTokenSet st.children idxTok)
          st.wikis search ip.topics := by
    apply List.filter_eq_self.mpr
    intro c hc
    simp [runChildren_node_type co idxTok ip.spaceId
      (existingTokenSet st.children idxTok) st.wikis search ip.topics c hc]
  have hunf1 : existingTokenSet st1.children idxTok
      = ((st1.children idxTok).filter (fun item => item.node_type = "shortcut")).map
          (fun n => n.origin_node_token) := by
    rw [existingTokenSet, getExistingShortcuts, List.take_of_length_le hlen]
  have hunf0 : existingTokenSet st.children idxTok
      = ((st.children idxTok).filter (fun item => item.node_type = "shortcut")).map
          (fun n => n.origin_node_token) := by
    rw [existingTokenSet, getExistingShortcuts, List.take_of_length_le hlen0]
  have hE2 : existingTokenSet st1.children idxTok
      = existingTokenSet st.children idxTok
        ++ (runChildren co idxTok ip.spaceId (existingTokenSet st.children idxTok)
              st.wikis search ip.topics).map (fun c => c.origin_node_token) := by
    rw [hunf1, hchi, List.filter_append, hfRC, List.map_append, ← hunf0]
  have hcov : ∀ t ∈ ip.topics, ∀ p ∈ collectTopicPages st.wikis search t,
      jsTokenOf p ∈ existingTokenSet st1.children idxTok := by
    intro t ht p hp
    rw [hE2]
    by_cases hmem : jsTokenOf p ∈ existingTokenSet st.children idxTok
    · exact List.mem_append.mpr (Or.inl hmem)
    · refine List.mem_append.mpr (Or.inr ?_)
      apply List.mem_map.mpr
      refine ⟨mkChild ip.spaceId p, ?_, rfl⟩
      rw [runChildren]
      apply List.mem_flatMap.mpr
      refine ⟨t, ht, List.mem_map.mpr ⟨p, ?_, rfl⟩⟩
      rw [newPages]
      exact List.mem_filter.mpr ⟨hp, by simp [hmem, hco]⟩
  obtain ⟨st2, log2, hupd2, hw2, hip2res, hsc2, hch2, hlog2⟩ :=
    updateIndexPage_spec search co st1 idxTok ip (by rw [hipres]; exact hip)
  have hnew2 : ∀ t ∈ ip.topics,
      newPages co idxTok (existingTokenSet st1.children idxTok)
        (collectTopicPages st1.wikis search t) = [] := by
    intro t ht
    rw [hw, newPages, List.filter_eq_nil_iff]
    intro p hp
    simp [hcov t ht p hp]
  have hrp2 : runPairs co idxTok ip.spaceId (existingTokenSet st1.children idxTok)
      st1.wikis search ip.topics = [] := by
    rw [runPairs, List.flatMap_eq_nil_iff]
    intro t ht
    rw [topicPairs, hw, ← hw, hnew2 t ht, List.map_nil]
  refine ⟨st2, log2, hupd2, ?_, ?_, ?_⟩
  · rw [hsc2, hrp2]
    rfl
  · have : getStatistics st2 = getStatistics st1 := by
      rw [getStatistics, getStatistics, hw2, hip2res, hsc2, hrp2]
      rfl
    rw [this]
  · rw [hlog2]
    apply List.map_congr_left
    intro t ht
    have hskip : skippedCount (existingTokenSet st1.children idxTok)
        (collectTopicPages st1.wikis search t)
        = (collectTopicPages st.wikis search t).length := by
      rw [skippedCount, hw,
        List.filter_eq_self.mpr (fun p hp => by simp [hcov t ht p hp])]
    rw [hnew2 t ht, hskip, List.length_nil]

/-- Witness for C2: the one-topic page whose only candidate T is already
linked remotely; both runs skip it, the second run changes nothing. -/
theorem second_run_is_idempotent_witness :
    ∃ st2 log2, updateIndexPage searchA coAll stPre "IDX1" = some (st2, log2)
      ∧ st2.shortcuts = stPre.shortcuts
      ∧ (getStatistics st2).totalShortcuts = (getStatistics stPre).totalShortcuts
      ∧ log2 = indexSingle.topics.map (fun t =>
          (t.id, 0, (collectTopicPages stPre.wikis searchA t).length)) :=
  second_run_is_idempotent searchA coAll stPre "IDX1" indexSingle rfl (fun _ => rfl)
    stPre [("A", 0, 1)] rfl (by decide)

/-- C9: the bulk-attach path `addToMultipleIndexes` records no
`ShortcutInfo` for the links it creates, so the accumulated record set
is unchanged and `getStatistics()` — in particular `totalShortcuts`,
`shortcutsByTopic` and `duplicatePages` — is unaffected. -/
theorem addToMultipleIndexes_records_nothing
    (co : CreateOk) (st : ManagerState) (tgt sid : String) (idxs : List String) :
    (addToMultipleIndexes co st tgt sid idxs).shortcuts = st.shortcuts
    ∧ (getStatistics (addToMultipleIndexes co st tgt sid idxs)).totalShortcuts
        = (getStatistics st).totalShortcuts
    ∧ (getStatistics (addToMultipleIndexes co st tgt sid idxs)).shortcutsByTopic
        = (getStatistics st).shortcutsByTopic
    ∧ (getStatistics (addToMultipleIndexes co st tgt sid idxs)).duplicatePages
        = (getStatistics st).duplicatePages := by
  obtain ⟨hw, hip, hsc⟩ := addToMultipleIndexes_components co tgt sid idxs st
  have hstats : getStatistics (addToMultipleIndexes co st tgt sid idxs) = getStatistics st := by
    rw [getStatistics, getStatistics, hw, hip, hsc]
  exact ⟨hsc, by rw [hstats], by rw [hstats], by rw [hstats]⟩

end WikiIndex

namespace LarkAgent

theorem findEntry_none {γ : Type} (m : List (Nat × γ)) (k : Nat)
    (h : ∀ e ∈ m, e.1 ≠ k) : m.find? (fun e => e.1 == k) = none := by
  rw [List.find?_eq_none]
  intro e he
  simpa using h e he

theorem mapSet_fresh {γ : Type} (m : List (Nat × γ)) (k : Nat) (v : γ)
    (h : ∀ e ∈ m, e.1 ≠ k) : mapSet m k v = m ++ [(k, v)] := by
  rw [mapSet, if_neg]
  intro hany
  rcases List.any_eq_true.mp hany with ⟨e, he, hek⟩
  exact h e he (by simpa using hek)

theorem mapGet_append_last {γ : Type} (m : List (Nat × γ)) (k : Nat) (v : γ)
    (h : ∀ e ∈ m, e.1 ≠ k) : mapGet (m ++ [(k, v)]) k = some v := by
  rw [mapGet, List.find?_append, findEntry_none m k h]
  simp

theorem mapGet_append_ne {γ : Type} (m : List (Nat × γ)) (k k' : Nat) (v : γ)
    (h : k ≠ k') : mapGet (m ++ [(k, v)]) k' = mapGet m k' := by
  rw [mapGet, mapGet, List.find?_append]
  cases hm : m.find? (fun e => e.1 == k') with
  | some e => simp
  | none =>
      have hone : (List.find? (fun e => e.1 == k') [(k, v)]) = none := by
        simp [List.find?_cons, h]
      simp [hone]

theorem mapDelete_append_last {γ : Type} (m : List (Nat × γ)) (k : Nat) (v : γ)
    (h : ∀ e ∈ m, e.1 ≠ k) : mapDelete (m ++ [(k, v)]) k = m := by
  rw [mapDelete, List.filter_append]
  have h1 : m.filter (fun e => e.1 ≠ k) = m := by
    rw [List.filter_eq_self]
    intro e he
    simpa using h e he
  have h2 : List.filter (fun e => e.1 ≠ k) [(k, v)] = [] := by simp
  rw [h1, h2, List.append_nil]

theorem mapGet_delete_self {γ : Type} (m : List (Nat × γ)) (k : Nat) :
    mapGet (mapDelete m k) k = none := by
  rw [mapGet, mapDelete, List.find?_eq_none.mpr]
  · rfl
  · intro e he
    have := (List.mem_filter.mp he).2
    simpa using this

/-- A response whose nonzero id is pending settles that continuation and
deletes exactly that entry. -/
theorem handleParsedResponse_found {γ α : Type} (p : List (Nat × γ)) (id : Nat) (c : γ)
    (e : Option MCPError) (res : Option α)
    (hid : id ≠ 0) (hc : mapGet p id = some c) :
    handleParsedResponse p (MCPResponse.mk id e res)
      = (mapDelete p id, [(c, mcpOutcome e res)]) := by
  have hid' : (id == 0) = false := by simpa using hid
  rw [handleParsedResponse]
  simp only [hid', Bool.false_eq_true, if_false, hc]

/-- C3: correlation is purely id-based and independent of send order.
After two requests are sent (continuations c1 then c2, ids i then j),
delivering the response for j first settles only c2 and removes only j's
pending entry; i stays pending, mapped to c1, until its own response
arrives, which then settles c1 and removes i. -/
theorem correlation_is_order_independent {γ α : Type}
    (st st1 st2 : AgentState γ) (c1 c2 : γ) (i j : Nat)
    (o1 o2 : Option (γ × Outcome α)) (e1 e2 : Option MCPError) (res1 res2 : Option α)
    (hwf : ∀ e ∈ st.pending, e.1 < st.requestId)
    (hpos : 1 ≤ st.requestId)
    (hs1 : sendMCPRequest (α := α) st c1 true = (st1, i, o1))
    (hs2 : sendMCPRequest (α := α) st1 c2 true = (st2, j, o2)) :
    (handleParsedResponse st2.pending (MCPResponse.mk j e2 res2)).2
        = [(c2, mcpOutcome e2 res2)]
    ∧ mapGet (handleParsedResponse st2.pending (MCPResponse.mk j e2 res2)).1 j = none
    ∧ mapGet (handleParsedResponse st2.pending (MCPResponse.mk j e2 res2)).1 i = some c1
    ∧ (handleParsedResponse (handleParsedResponse st2.pending (MCPResponse.mk j e2 res2)).1
        (MCPResponse.mk i e1 res1)).2 = [(c1, mcpOutcome e1 res1)]
    ∧ mapGet (handleParsedResponse (handleParsedResponse st2.pending
        (MCPResponse.mk j e2 res2)).1 (MCPResponse.mk i e1 res1)).1 i = none := by
  have hs1' : (({ requestId := st.requestId + 1,
                  pending := mapSet st.pending st.requestId c1 } : AgentState γ),
               st.requestId, (none : Option (γ × Outcome α))) = (st1, i, o1) := hs1
  rw [Prod.mk.injEq, Prod.mk.injEq] at hs1'
  obtain ⟨hst1, hi, ho1⟩ := hs1'
  subst hst1 hi
  have hs2' : (({ requestId := st.requestId + 1 + 1,
                  pending := mapSet (mapSet st.pending st.requestId c1)
                    (st.requestId + 1) c2 } : AgentState γ),
               st.requestId + 1, (none : Option (γ × Outcome α))) = (st2, j, o2) := hs2
  rw [Prod.mk.injEq, Prod.mk.injEq] at hs2'
  obtain ⟨hst2, hj, ho2⟩ := hs2'
  subst hst2 hj
  have hfresh1 : ∀ e ∈ st.pending, e.1 ≠ st.requestId :=
    fun e he => Nat.ne_of_lt (hwf e he)
  have hp1 : mapSet st.pending st.requestId c1 = st.pending ++ [(st.requestId, c1)] :=
    mapSet_fresh st.pending st.requestId c1 hfresh1
  have hfresh2 : ∀ e ∈ st.pending ++ [(st.requestId, c1)], e.1 ≠ st.requestId + 1 := by
    intro e he
    rcases List.mem_append.mp he with h | h
    · exact Nat.ne_of_lt (Nat.lt_succ_of_lt (hwf e h))
    · rcases List.mem_singleton.mp h with rfl
      exact Nat.ne_of_lt (Nat.lt_succ_self _)
  have hp2 : mapSet (mapSet st.pending st.requestId c1) (st.requestId + 1) c2
      = (st.pending ++ [(st.requestId, c1)]) ++ [(st.requestId + 1, c2)] := by
    rw [hp1]
    exact mapSet_fresh _ _ c2 hfresh2
  have hine : st.requestId ≠ 0 := by omega
  have hjne : st.requestId + 1 ≠ 0 := Nat.succ_ne_zero _
  have hgetj : mapGet (mapSet (mapSet st.pending st.requestId c1) (st.requestId + 1) c2)
      (st.requestId + 1) = some c2 := by
    rw [hp2]
    exact mapGet_append_last _ _ c2 hfresh2
  have hstep2 := handleParsedResponse_found
    (mapSet (mapSet st.pending st.requestId c1) (st.requestId + 1) c2)
    (st.requestId + 1) c2 e2 res2 hjne hgetj
  have hdel2 : mapDelete (mapSet (mapSet st.pending st.requestId c1) (st.requestId + 1) c2)
      (st.requestId + 1) = st.pending ++ [(st.requestId, c1)] := by
    rw [hp2]
    exact mapDelete_append_last _ _ c2 hfresh2
  have hgeti : mapGet (mapDelete (mapSet (mapSet st.pending st.requestId c1)
      (st.requestId + 1) c2) (st.requestId + 1)) st.requestId = some c1 := by
    rw [hdel2]
    exact mapGet_append_last _ _ c1 hfresh1
  have hstep1 := handleParsedResponse_found
    (mapDelete (mapSet (mapSet st.pending st.requestId c1) (st.requestId + 1) c2)
      (st.requestId + 1))
    st.requestId c1 e1 res1 hine hgeti
  refine ⟨?_, ?_, ?_, ?_, ?_⟩
  · rw [hstep2]
  · rw [hstep2]
    exact mapGet_delete_self _ _
  · rw [hstep2]
    exact hgeti
  · rw [hstep2, hstep1]
  · rw [hstep2, hstep1]
    exact mapGet_delete_self _ _

/-- Witness for C3 from the initial agent state: ids 1 and 2 are sent,
the id-2 response (a success) arrives first, then the id-1 response (an
error). -/
theorem correlation_is_order_independent_witness :
    (handleParsedResponse [(1, 11), (2, 22)] (MCPResponse.mk (α := Nat) 2 none (some 7))).2
        = [(22, mcpOutcome none (some 7))]
    ∧ mapGet (handleParsedResponse [(1, 11), (2, 22)]
        (MCPResponse.mk (α := Nat) 2 none (some 7))).1 2 = none
    ∧ mapGet (handleParsedResponse [(1, 11), (2, 22)]
        (MCPResponse.mk (α := Nat) 2 none (some 7))).1 1 = some 11
    ∧ (handleParsedResponse (handleParsedResponse [(1, 11), (2, 22)]
        (MCPResponse.mk (α := Nat) 2 none (some 7))).1
        (MCPResponse.mk (α := Nat) 1 (some ⟨5, "e"⟩) none)).2
          = [(11, mcpOutcome (some ⟨5, "e"⟩) none)]
    ∧ mapGet (handleParsedResponse (handleParsedResponse [(1, 11), (2, 22)]
        (MCPResponse.mk (α := Nat) 2 none (some 7))).1
        (MCPResponse.mk (α := Nat) 1 (some ⟨5, "e"⟩) none)).1 1 = none :=
  correlation_is_order_independent (initialAgentState Nat)
    { requestId := 2, pending := [(1, 11)] }
    { requestId := 3, pending := [(1, 11), (2, 22)] }
    11 22 1 2 none none (some ⟨5, "e"⟩) none none (some 7)
    (fun e he => absurd he (List.not_mem_nil e)) (Nat.le_refl 1) rfl rfl

/-- C4 as amended: when the matched response carries an error envelope,
the continuation is rejected with an error carrying the envelope's
message only; when it carries no error envelope, the continuation is
resolved with the raw result payload.  The pending entry is removed
either way. -/
theorem settle_unwraps_error_envelope {γ α : Type}
    (p : List (Nat × γ)) (r : MCPResponse α) (c : γ)
    (hid : r.id ≠ 0) (hc : mapGet p r.id = some c) :
    (handleParsedResponse p r).2
        = [(c, match r.error with
               | some e => Outcome.rejected e.message
               | none => Outcome.resolved r.result)]
    ∧ mapGet (handleParsedResponse p r).1 r.id = none := by
  have hid' : (r.id == 0) = false := by simpa using hid
  rw [handleParsedResponse, hid']
  simp only [Bool.false_eq_true, if_false, hc]
  exact ⟨rfl, mapGet_delete_self p r.id⟩

/-- Witness for the amended C4 at a concrete error response (id 1, code
42) and a concrete success response. -/
theorem settle_unwraps_error_envelope_witness :
    (handleParsedResponse [(1, 5)] (MCPResponse.mk (α := Nat) 1 (some ⟨42, "m"⟩) none)).2
        = [(5, Outcome.rejected "m")]
    ∧ (handleParsedResponse [(1, 5)] (MCPResponse.mk (α := Nat) 1 none (some 9))).2
        = [(5, Outcome.resolved (some 9))] :=
  ⟨(settle_unwraps_error_envelope [(1, 5)] (MCPResponse.mk (α := Nat) 1 (some ⟨42, "m"⟩) none)
      5 (by decide) (by decide)).1,
   (settle_unwraps_error_envelope [(1, 5)] (MCPResponse.mk (α := Nat) 1 none (some 9))
      5 (by decide) (by decide)).1⟩

/-- C4 counterexample: the rejection raised for an error envelope does
not carry the code field.  Two responses identical except for the error
code (7 versus 8) produce exactly the same table and the same rejection
— `new Error(response.error.message)` keeps the message only — so the
claimed error-carrying-both-fields behaviour is refuted. -/
theorem rejection_drops_error_code :
    handleParsedResponse [(1, 5)] (MCPResponse.mk (α := Nat) 1 (some ⟨7, "boom"⟩) none)
        = handleParsedResponse [(1, 5)] (MCPResponse.mk (α := Nat) 1 (some ⟨8, "boom"⟩) none)
    ∧ (handleParsedResponse [(1, 5)] (MCPResponse.mk (α := Nat) 1 (some ⟨7, "boom"⟩) none)).2
        = [(5, Outcome.rejected "boom")] := by
  exact ⟨by decide, by decide⟩

end LarkAgent
